import Mathlib

/-!
Verification development for the job-posting pipeline (job_pipeline.py).

The definitions below are a shallow embedding of the feature-derivation and
normalization core of the pipeline: text cleaning, salary parsing and yearly
normalization, skill extraction, role and region classification, and the
cleaning plus URL-deduplication pass.

Modelling conventions:
- Python strings are Lean String values; character-level work is done on
  List Char.  All inputs of interest are ASCII, so Char.toLower and the
  explicit ASCII character classes below coincide with the Python behaviour.
- Python float values produced by the salary parser are modelled as exact
  rationals.  Every numeric literal the parser reads is a decimal numeral,
  represented exactly by a mantissa and a power-of-ten exponent (structure
  Dec); the result is converted to a rational at the parser boundary.
- Fallible results use Option.
-/

set_option maxRecDepth 8000

namespace JobPipeline

/-- ASCII whitespace, matching the characters of the Python regex class \s
for the ASCII inputs handled by the pipeline. -/
def isPySpace (c : Char) : Bool :=
  c == ' ' || c == '\t' || c == '\n' || c == '\r' || c == '\x0b' || c == '\x0c'

/-- ASCII word character, matching the Python regex class \w on ASCII input. -/
def isWordChar (c : Char) : Bool :=
  ('a' ≤ c && c ≤ 'z') || ('A' ≤ c && c ≤ 'Z') || ('0' ≤ c && c ≤ '9') || c == '_'

/-- Collapse every maximal run of whitespace to a single space, as done by
re.sub on the pattern of one-or-more whitespace characters.  The flag records
whether the previous character was part of a whitespace run. -/
def collapseWS : Bool → List Char → List Char
  | _, [] => []
  | prevSpace, c :: cs =>
    if isPySpace c then
      if prevSpace then collapseWS true cs else ' ' :: collapseWS true cs
    else c :: collapseWS false cs

/-- Embedding of clean_text from the source: collapse whitespace runs to a
single space, then strip leading and trailing whitespace. -/
def cleanTextL (l : List Char) : List Char :=
  (((collapseWS false l).dropWhile isPySpace).reverse.dropWhile isPySpace).reverse

/-- clean_text on String values. -/
def clean_text (s : String) : String :=
  String.mk (cleanTextL s.data)

/-- Lowercased character list of a string, modelling the Python lower method
on ASCII input. -/
def lowerL (s : String) : List Char :=
  s.data.map Char.toLower

/-- Boolean test that p occurs at the very start of t. -/
def isPrefixOfL : List Char → List Char → Bool
  | [], _ => true
  | _ :: _, [] => false
  | a :: as, b :: bs => a == b && isPrefixOfL as bs

/-- Boolean test that p occurs contiguously somewhere in t, modelling the
Python substring operator on strings. -/
def containsSub (p : List Char) : List Char → Bool
  | [] => p.isEmpty
  | c :: ts => isPrefixOfL p (c :: ts) || containsSub p ts

/-- Word-character test on an optional character; positions outside the
string count as non-word, as in regex word-boundary semantics. -/
def wOpt : Option Char → Bool
  | none => false
  | some c => isWordChar c

/-- One anchored match attempt: the literal pattern pat matches at the head
of t, with a regex word boundary before the match (prev is the character just
before the current position) and after it. -/
def boundedAt (pat : List Char) (prev : Option Char) (t : List Char) : Bool :=
  isPrefixOfL pat t && (wOpt prev != wOpt t.head?) &&
    (wOpt pat.getLast? != wOpt ((t.drop pat.length).head?))

/-- Scan t for a word-boundary-anchored occurrence of the literal pattern,
threading the previous character for the boundary test. -/
def wordSearchAux (pat : List Char) : Option Char → List Char → Bool
  | _, [] => false
  | prev, c :: ts => boundedAt pat prev (c :: ts) || wordSearchAux pat (some c) ts

/-- Embedding of the regex search for a word-boundary-anchored literal
pattern, as built by extract_skills for short vocabulary entries. -/
def wordSearch (pat t : List Char) : Bool :=
  wordSearchAux pat none t

/-- Exact decimal numeral: value m divided by ten to the e. This represents
every numeric token the salary parser can read, exactly. -/
structure Dec where
  m : Nat
  e : Nat
deriving DecidableEq

/-- Rational value of a decimal numeral. -/
def Dec.toQ (d : Dec) : ℚ :=
  (d.m : ℚ) / 10 ^ d.e

/-- Multiply a decimal numeral by a natural constant (used for the factor
1000 of a k suffix and the yearly conversion factors). -/
def Dec.mulNat (d : Dec) (c : Nat) : Dec :=
  ⟨d.m * c, d.e⟩

/-- Kernel-computable comparison of decimal numerals, by cross
multiplication. -/
def Dec.ble (a b : Dec) : Bool :=
  decide (a.m * 10 ^ b.e ≤ b.m * 10 ^ a.e)

/-- Strict kernel-computable comparison of decimal numerals. -/
def Dec.blt (a b : Dec) : Bool :=
  decide (a.m * 10 ^ b.e < b.m * 10 ^ a.e)

/-- Minimum of two decimal numerals, returning the first on ties as the
Python builtin min does. -/
def Dec.minD (a b : Dec) : Dec :=
  if Dec.ble a b then a else b

/-- Maximum of two decimal numerals; on ties the value is the common one. -/
def Dec.maxD (a b : Dec) : Dec :=
  if Dec.ble a b then b else a

/-- Value of a list of ASCII digits read in base ten. -/
def digitsToNat (ds : List Char) : Nat :=
  ds.foldl (fun a c => 10 * a + (c.toNat - '0'.toNat)) 0

/-- Read one numeric token at the head of l (which starts with a digit):
a maximal digit run optionally followed by a dot and a further nonempty digit
run, exactly the first group of the salary regex.  Returns the token value
and the unread rest. -/
def readNum (l : List Char) : Dec × List Char :=
  let ds := l.takeWhile Char.isDigit
  let r1 := l.dropWhile Char.isDigit
  match r1 with
  | '.' :: r2 =>
    let fs := r2.takeWhile Char.isDigit
    if fs.isEmpty then (⟨digitsToNat ds, 0⟩, r1)
    else (⟨digitsToNat (ds ++ fs), fs.length⟩, r2.dropWhile Char.isDigit)
  | _ => (⟨digitsToNat ds, 0⟩, r1)

/-- Consume the regex tail of a numeric token: any run of whitespace and then
an optional letter k, returning whether the k was present and the unread
rest.  The whitespace is allowed by the salary regex between the number and
the k suffix. -/
def skipWsK (l : List Char) : Bool × List Char :=
  let r := l.dropWhile isPySpace
  match r with
  | 'k' :: rest => (true, rest)
  | _ => (false, r)

/-- Fuelled left-to-right scan for numeric tokens.  Each step either skips a
non-digit character or reads one full token; the fuel is an upper bound on
the number of steps, so fuel equal to the list length always suffices. -/
def scanNumsAux : Nat → List Char → List Dec
  | 0, _ => []
  | _ + 1, [] => []
  | fuel + 1, c :: cs =>
    if c.isDigit then
      let p := readNum (c :: cs)
      let q := skipWsK p.2
      (if q.1 then p.1.mulNat 1000 else p.1) :: scanNumsAux fuel q.2
    else scanNumsAux fuel cs

/-- Left-to-right list of the numeric candidates of a salary text, modelling
re.finditer with the salary number pattern: an integer-or-decimal numeral,
optionally followed by whitespace and a k suffix that multiplies it by a
thousand. -/
def scanNums (l : List Char) : List Dec :=
  scanNumsAux l.length l

/-- Unit detection of the salary parser: substring tests in the priority
order of the source, defaulting to year. -/
def detect_unit (txt : List Char) : String :=
  if containsSub "/hr".data txt || containsSub "per hour".data txt ||
      containsSub "hour".data txt then "hour"
  else if containsSub "/month".data txt || containsSub "per month".data txt then "month"
  else if containsSub "/week".data txt || containsSub "per week".data txt then "week"
  else "year"

/-- Yearly conversion applied by the source to the low and high candidate:
hour times 2080, week times 52, month times 12, otherwise unchanged. -/
def annualizeD (unit : String) (d : Dec) : Dec :=
  if unit = "hour" then d.mulNat 2080
  else if unit = "week" then d.mulNat 52
  else if unit = "month" then d.mulNat 12
  else d

/-- Body of the salary parser after the empty-input check, operating on the
lowercased, comma-stripped text: detect the unit, scan the candidates, keep
the first two as low and high, annualize, and apply the plausibility gate. -/
def parseCore (txt : List Char) : Option ℚ × Option ℚ × String :=
  let unit := detect_unit txt
  match scanNums txt with
  | [] => (none, none, unit)
  | n0 :: rest =>
    let lo := annualizeD unit (match rest with | [] => n0 | n1 :: _ => Dec.minD n0 n1)
    let hi := annualizeD unit (match rest with | [] => n0 | n1 :: _ => Dec.maxD n0 n1)
    if Dec.blt lo ⟨15000, 0⟩ || Dec.blt ⟨700000, 0⟩ hi then (none, none, unit)
    else (some lo.toQ, some hi.toQ, unit)

/-- Lowercased, comma-stripped text of a cleaned salary string, exactly the
txt value of the source. -/
def salaryTxt (s : String) : List Char :=
  ((cleanTextL s.data).map Char.toLower).filter (fun c => c != ',')

/-- Embedding of parse_salary_to_yearly_usd from the source. -/
def parse_salary_to_yearly_usd (s : String) : Option ℚ × Option ℚ × String :=
  if (cleanTextL s.data).isEmpty then (none, none, "unknown")
  else parseCore (salaryTxt s)

/-- Numeric candidates of a salary string, as rationals. -/
def salary_nums (s : String) : List ℚ :=
  (scanNums (salaryTxt s)).map Dec.toQ

/-- Pre-conversion low and high candidate of a salary string, at the decimal
numeral level. -/
def salaryRangeD (s : String) : Option (Dec × Dec) :=
  match scanNums (salaryTxt s) with
  | [] => none
  | [n] => some (n, n)
  | a :: b :: _ => some (Dec.minD a b, Dec.maxD a b)

/-- Pre-conversion low and high candidate of a salary string, as rationals. -/
def salaryRange (s : String) : Option (ℚ × ℚ) :=
  (salaryRangeD s).map (fun p => (p.1.toQ, p.2.toQ))

/-- Fixed yearly conversion factor for each unit label. -/
def yearlyFactor (u : String) : ℚ :=
  if u = "hour" then 2080
  else if u = "week" then 52
  else if u = "month" then 12
  else 1

/-- Unit component returned by the salary parser. -/
def salary_unit (s : String) : String :=
  if (cleanTextL s.data).isEmpty then "unknown" else detect_unit (salaryTxt s)

/-- Fixed skill vocabulary of the source, in declaration order. -/
def SKILLS : List String :=
  ["python", "sql", "java", "javascript", "typescript", "c++", "r",
   "machine learning", "deep learning", "nlp", "computer vision",
   "pytorch", "tensorflow", "keras", "scikit-learn", "pandas", "numpy",
   "aws", "gcp", "azure", "docker", "kubernetes",
   "react", "node", "flask", "django", "fastapi",
   "postgresql", "mysql", "mongodb", "git"]

/-- Matching rule of extract_skills for one vocabulary entry against the
lowercased text: entries of length at most three, and the entry r, are
matched with word-boundary anchoring; longer entries by plain substring
containment. -/
def skillMatch (t : List Char) (sk : String) : Bool :=
  if sk.length ≤ 3 || sk == "r" then wordSearch sk.data t else containsSub sk.data t

/-- Order-preserving removal of duplicates keeping the first occurrence,
as done by the seen-set loop of extract_skills. -/
def dedupKeepFirst (seen : List String) : List String → List String
  | [] => []
  | x :: xs => if x ∈ seen then dedupKeepFirst seen xs else x :: dedupKeepFirst (x :: seen) xs

/-- Embedding of extract_skills from the source. -/
def extract_skills (text : String) (skill_list : List String) : List String :=
  let t := lowerL text
  let found := skill_list.filter (skillMatch t)
  dedupKeepFirst [] found

/-- Role buckets of the source, as an ordered table of label and keyword
list, in declaration order. -/
def ROLE_KEYWORDS : List (String × List String) :=
  [("Data Scientist", ["data scientist", "data science"]),
   ("ML Engineer", ["machine learning engineer", "ml engineer", "applied scientist"]),
   ("Data Analyst", ["data analyst", "analytics"]),
   ("Software Engineer", ["software engineer", "backend engineer", "frontend engineer",
                          "full stack", "full-stack"]),
   ("Data Engineer", ["data engineer", "analytics engineer"]),
   ("DevOps", ["devops", "site reliability", "sre", "platform engineer"])]

/-- Region buckets of the source, as an ordered table of label and keyword
list, in declaration order. -/
def REGION_KEYWORDS : List (String × List String) :=
  [("West Coast", ["ca", "california", "wa", "washington", "or", "oregon"]),
   ("East Coast", ["ny", "new york", "nj", "new jersey", "ma", "massachusetts",
                   "dc", "virginia", "md", "maryland", "pa", "pennsylvania"]),
   ("Central", ["tx", "texas", "il", "illinois", "co", "colorado", "ga", "georgia"])]

/-- Any keyword of the list occurs as a substring of the lowercased text. -/
def anyKeyIn (keys : List String) (t : List Char) : Bool :=
  keys.any (fun k => containsSub k.data t)

/-- First bucket of the table one of whose keywords occurs in the text, in
table order. -/
def firstLabel (t : List Char) : List (String × List String) → Option String
  | [] => none
  | (lab, keys) :: rest => if anyKeyIn keys t then some lab else firstLabel t rest

/-- Embedding of categorize_role from the source. -/
def categorize_role (title : String) : String :=
  (firstLabel (lowerL title) ROLE_KEYWORDS).getD "Other"

/-- Embedding of classify_region from the source. -/
def classify_region (location : String) : String :=
  match firstLabel (lowerL location) REGION_KEYWORDS with
  | some lab => lab
  | none =>
    if containsSub "remote".data (lowerL location) then "Remote/Unspecified"
    else "Other/Unspecified"

/-- Structured raw job post, mirroring the JobPost dataclass of the source. -/
structure JobPost where
  source : String
  title : String
  company : String
  location : String
  date_posted_raw : String
  salary_raw : String
  url : String
  description : String
  scraped_at_utc : String
deriving DecidableEq

/-- Enriched record produced by clean_posts: the raw fields after
normalization plus the derived analysis columns. -/
structure EnrichedPost where
  source : String
  title : String
  company : String
  location : String
  date_posted_raw : String
  salary_raw : String
  url : String
  description : String
  scraped_at_utc : String
  role_category : String
  region : String
  skills : List String
  num_skills : Nat
  salary_min_usd_year : Option ℚ
  salary_max_usd_year : Option ℚ
  salary_unit_guess : String
  salary_mid_usd_year : Option ℚ
deriving DecidableEq

/-- Whitespace normalization pass of clean_posts: clean_text applied to the
title, company, location, description, source and url columns (the raw date
and salary columns are left as received). -/
def normalizePost (p : JobPost) : JobPost :=
  { p with
    title := clean_text p.title
    company := clean_text p.company
    location := clean_text p.location
    description := clean_text p.description
    source := clean_text p.source
    url := clean_text p.url }

/-- Row mean of the two salary columns, modelling the pandas DataFrame mean
over axis one with its default skipna behaviour: missing entries are ignored
and the mean of no entries is missing. -/
def rowMean2 : Option ℚ → Option ℚ → Option ℚ
  | some a, some b => some ((a + b) / 2)
  | some a, none => some a
  | none, some b => some b
  | none, none => none

/-- Per-record enrichment of clean_posts: role, region, skills over the
space-joined title and description, and the parsed salary columns. -/
def enrich (p : JobPost) : EnrichedPost :=
  let t := parse_salary_to_yearly_usd p.salary_raw
  let sks := extract_skills (p.title ++ " " ++ p.description) SKILLS
  { source := p.source
    title := p.title
    company := p.company
    location := p.location
    date_posted_raw := p.date_posted_raw
    salary_raw := p.salary_raw
    url := p.url
    description := p.description
    scraped_at_utc := p.scraped_at_utc
    role_category := categorize_role p.title
    region := classify_region p.location
    skills := sks
    num_skills := sks.length
    salary_min_usd_year := t.1
    salary_max_usd_year := t.2.1
    salary_unit_guess := t.2.2
    salary_mid_usd_year := rowMean2 t.1 t.2.1 }

/-- Stable deduplication by URL keeping the first occurrence, modelling the
pandas drop_duplicates call on the url column with its default keep-first
behaviour. -/
def dedupByUrl (seen : List String) : List JobPost → List JobPost
  | [] => []
  | p :: ps =>
    if p.url ∈ seen then dedupByUrl seen ps
    else p :: dedupByUrl (p.url :: seen) ps

/-- Embedding of clean_posts from the source: normalize the text columns,
deduplicate by url keeping the first occurrence in input order, then derive
the analysis columns for each surviving record. -/
def clean_posts (df : List JobPost) : List EnrichedPost :=
  (dedupByUrl [] (df.map normalizePost)).map enrich

/-! Bridging lemmas between the exact decimal numerals and their rational
values. -/

theorem Dec.toQ_mulNat (d : Dec) (c : Nat) : (d.mulNat c).toQ = d.toQ * c := by
  unfold Dec.toQ Dec.mulNat
  push_cast
  ring

theorem Dec.toQ_nat (n : Nat) : (Dec.mk n 0).toQ = n := by
  unfold Dec.toQ
  norm_num

theorem Dec.ble_iff (a b : Dec) : (a.ble b = true) ↔ a.toQ ≤ b.toQ := by
  unfold Dec.ble Dec.toQ
  rw [decide_eq_true_eq, div_le_div_iff₀ (by positivity) (by positivity)]
  constructor
  · intro h
    exact_mod_cast h
  · intro h
    exact_mod_cast h

theorem Dec.blt_iff (a b : Dec) : (a.blt b = true) ↔ a.toQ < b.toQ := by
  unfold Dec.blt Dec.toQ
  rw [decide_eq_true_eq, div_lt_div_iff₀ (by positivity) (by positivity)]
  constructor
  · intro h
    exact_mod_cast h
  · intro h
    exact_mod_cast h

theorem Dec.minD_toQ (a b : Dec) : (a.minD b).toQ = min a.toQ b.toQ := by
  unfold Dec.minD
  by_cases h : a.ble b = true
  · rw [if_pos h, min_eq_left ((Dec.ble_iff a b).mp h)]
  · rw [if_neg h, min_eq_right (le_of_not_le (fun hh => h ((Dec.ble_iff a b).mpr hh)))]

theorem Dec.maxD_toQ (a b : Dec) : (a.maxD b).toQ = max a.toQ b.toQ := by
  unfold Dec.maxD
  by_cases h : a.ble b = true
  · rw [if_pos h, max_eq_right ((Dec.ble_iff a b).mp h)]
  · rw [if_neg h, max_eq_left (le_of_not_le (fun hh => h ((Dec.ble_iff a b).mpr hh)))]

theorem annualizeD_toQ (u : String) (d : Dec) :
    (annualizeD u d).toQ = d.toQ * yearlyFactor u := by
  unfold annualizeD yearlyFactor
  by_cases h1 : u = "hour"
  · simp [h1, Dec.toQ_mulNat]
  by_cases h2 : u = "week"
  · simp [h1, h2, Dec.toQ_mulNat]
  by_cases h3 : u = "month"
  · simp [h1, h2, h3, Dec.toQ_mulNat]
  · simp [h1, h2, h3]

theorem yearlyFactor_pos (u : String) : 0 < yearlyFactor u := by
  unfold yearlyFactor
  split
  · norm_num
  split
  · norm_num
  split
  · norm_num
  · norm_num

theorem detect_unit_cases (txt : List Char) :
    detect_unit txt = "hour" ∨ detect_unit txt = "month" ∨
      detect_unit txt = "week" ∨ detect_unit txt = "year" := by
  unfold detect_unit
  split
  · exact Or.inl rfl
  split
  · exact Or.inr (Or.inl rfl)
  split
  · exact Or.inr (Or.inr (Or.inl rfl))
  · exact Or.inr (Or.inr (Or.inr rfl))

/-! Characterization of the salary parser in terms of its phases. -/

theorem parse_empty (s : String) (h : cleanTextL s.data = []) :
    parse_salary_to_yearly_usd s = (none, none, "unknown") := by
  unfold parse_salary_to_yearly_usd
  rw [if_pos]
  rw [h]
  rfl

theorem salary_unit_empty (s : String) (h : cleanTextL s.data = []) :
    salary_unit s = "unknown" := by
  unfold salary_unit
  rw [if_pos]
  rw [h]
  rfl

theorem salary_unit_nonempty (s : String) (h : cleanTextL s.data ≠ []) :
    salary_unit s = detect_unit (salaryTxt s) := by
  unfold salary_unit
  rw [if_neg]
  simpa using h

theorem parse_char (s : String) (h : cleanTextL s.data ≠ []) :
    parse_salary_to_yearly_usd s =
      match salaryRangeD s with
      | none => (none, none, salary_unit s)
      | some lh =>
        if Dec.blt (annualizeD (salary_unit s) lh.1) ⟨15000, 0⟩ ||
            Dec.blt ⟨700000, 0⟩ (annualizeD (salary_unit s) lh.2) then
          (none, none, salary_unit s)
        else
          (some (annualizeD (salary_unit s) lh.1).toQ,
            some (annualizeD (salary_unit s) lh.2).toQ, salary_unit s) := by
  unfold parse_salary_to_yearly_usd
  rw [if_neg (by simpa using h)]
  rw [salary_unit_nonempty s h]
  unfold parseCore salaryRangeD
  rcases hscan : scanNums (salaryTxt s) with _ | ⟨n0, _ | ⟨n1, rest⟩⟩
  · rfl
  · rfl
  · rfl

/-- The parser never returns a half-missing range: either both bounds are
missing or both are present. -/
theorem parse_shape (s : String) :
    (∃ u, parse_salary_to_yearly_usd s = (none, none, u)) ∨
    (∃ a b u, parse_salary_to_yearly_usd s = (some a, some b, u)) := by
  by_cases h : cleanTextL s.data = []
  · exact Or.inl ⟨"unknown", parse_empty s h⟩
  · rw [parse_char s h]
    rcases hr : salaryRangeD s with _ | ⟨l, h2⟩
    · exact Or.inl ⟨salary_unit s, rfl⟩
    · dsimp only
      by_cases hg : (Dec.blt (annualizeD (salary_unit s) l) ⟨15000, 0⟩ ||
          Dec.blt ⟨700000, 0⟩ (annualizeD (salary_unit s) h2)) = true
      · rw [if_pos hg]
        exact Or.inl ⟨salary_unit s, rfl⟩
      · rw [if_neg hg]
        exact Or.inr ⟨_, _, salary_unit s, rfl⟩

/-! Lemmas about the ordered first-match tables used by the classifiers. -/

theorem firstLabel_none (t : List Char) (L : List (String × List String))
    (h : ∀ pr ∈ L, anyKeyIn pr.2 t = false) : firstLabel t L = none := by
  induction L with
  | nil => rfl
  | cons hd tl ih =>
    obtain ⟨lab, keys⟩ := hd
    have h0 : anyKeyIn keys t = false := h (lab, keys) (List.mem_cons_self _ _)
    simp only [firstLabel, h0, Bool.false_eq_true, if_false]
    exact ih (fun pr hpr => h pr (List.mem_cons_of_mem _ hpr))

theorem firstLabel_first (t : List Char) (pre : List (String × List String)) (lab : String)
    (keys : List String) (post : List (String × List String))
    (hpre : ∀ pr ∈ pre, anyKeyIn pr.2 t = false) (hk : anyKeyIn keys t = true) :
    firstLabel t (pre ++ (lab, keys) :: post) = some lab := by
  induction pre with
  | nil => simp [firstLabel, hk]
  | cons hd tl ih =>
    obtain ⟨l2, k2⟩ := hd
    have h0 : anyKeyIn k2 t = false := hpre (l2, k2) (List.mem_cons_self _ _)
    simp only [List.cons_append, firstLabel, h0, Bool.false_eq_true, if_false]
    exact ih (fun pr hpr => hpre pr (List.mem_cons_of_mem _ hpr))

/-! Lemmas about order-preserving first-occurrence deduplication. -/

theorem mem_dedupKeepFirst (x : String) (l : List String) :
    ∀ seen, x ∈ dedupKeepFirst seen l ↔ x ∈ l ∧ x ∉ seen := by
  induction l with
  | nil =>
    intro seen
    simp [dedupKeepFirst]
  | cons y ys ih =>
    intro seen
    unfold dedupKeepFirst
    by_cases h : y ∈ seen
    · rw [if_pos h, ih seen]
      constructor
      · rintro ⟨hx, hns⟩
        exact ⟨List.mem_cons_of_mem _ hx, hns⟩
      · rintro ⟨hx, hns⟩
        rcases List.mem_cons.mp hx with rfl | hx2
        · exact absurd h hns
        · exact ⟨hx2, hns⟩
    · rw [if_neg h]
      constructor
      · intro hx
        rcases List.mem_cons.mp hx with rfl | hx2
        · exact ⟨List.mem_cons_self _ _, h⟩
        · have h3 := (ih (y :: seen)).mp hx2
          exact ⟨List.mem_cons_of_mem _ h3.1, fun hs => h3.2 (List.mem_cons_of_mem _ hs)⟩
      · rintro ⟨hx, hns⟩
        rcases List.mem_cons.mp hx with rfl | hx2
        · exact List.mem_cons_self _ _
        · by_cases hxy : x = y
          · subst hxy
            exact List.mem_cons_self _ _
          · refine List.mem_cons_of_mem _ ((ih (y :: seen)).mpr ⟨hx2, fun hs => ?_⟩)
            rcases List.mem_cons.mp hs with h4 | h4
            · exact hxy h4
            · exact hns h4

theorem nodup_dedupKeepFirst (l : List String) :
    ∀ seen, (dedupKeepFirst seen l).Nodup := by
  induction l with
  | nil =>
    intro seen
    simp [dedupKeepFirst]
  | cons y ys ih =>
    intro seen
    unfold dedupKeepFirst
    by_cases h : y ∈ seen
    · rw [if_pos h]
      exact ih seen
    · rw [if_neg h]
      refine List.nodup_cons.mpr ⟨fun hy => ?_, ih (y :: seen)⟩
      exact ((mem_dedupKeepFirst y ys (y :: seen)).mp hy).2 (List.mem_cons_self _ _)

theorem sublist_dedupKeepFirst (l : List String) :
    ∀ seen, (dedupKeepFirst seen l).Sublist l := by
  induction l with
  | nil =>
    intro seen
    simp [dedupKeepFirst]
  | cons y ys ih =>
    intro seen
    unfold dedupKeepFirst
    by_cases h : y ∈ seen
    · rw [if_pos h]
      exact (ih seen).cons y
    · rw [if_neg h]
      exact (ih (y :: seen)).cons₂ y

/-! Lemmas about the URL-keyed deduplication pass of the orchestrator. -/

theorem dedupByUrl_sublist (l : List JobPost) :
    ∀ seen, (dedupByUrl seen l).Sublist l := by
  induction l with
  | nil =>
    intro seen
    simp [dedupByUrl]
  | cons p ps ih =>
    intro seen
    unfold dedupByUrl
    by_cases h : p.url ∈ seen
    · rw [if_pos h]
      exact (ih seen).cons p
    · rw [if_neg h]
      exact (ih (p.url :: seen)).cons₂ p

theorem mem_url_dedupByUrl (U : String) (l : List JobPost) :
    ∀ seen, U ∈ (dedupByUrl seen l).map (fun p => p.url) ↔
      U ∈ l.map (fun p => p.url) ∧ U ∉ seen := by
  induction l with
  | nil =>
    intro seen
    simp [dedupByUrl]
  | cons p ps ih =>
    intro seen
    unfold dedupByUrl
    by_cases h : p.url ∈ seen
    · rw [if_pos h, ih seen]
      simp only [List.map_cons, List.mem_cons]
      constructor
      · rintro ⟨hx, hns⟩
        exact ⟨Or.inr hx, hns⟩
      · rintro ⟨hx, hns⟩
        rcases hx with rfl | hx2
        · exact absurd h hns
        · exact ⟨hx2, hns⟩
    · rw [if_neg h]
      simp only [List.map_cons, List.mem_cons]
      constructor
      · intro hx
        rcases hx with rfl | hx2
        · exact ⟨Or.inl rfl, h⟩
        · have h3 := (ih (p.url :: seen)).mp hx2
          exact ⟨Or.inr h3.1, fun hs => h3.2 (List.mem_cons_of_mem _ hs)⟩
      · rintro ⟨hx, hns⟩
        rcases hx with rfl | hx2
        · exact Or.inl rfl
        · by_cases hxy : U = p.url
          · exact Or.inl hxy
          · refine Or.inr ((ih (p.url :: seen)).mpr ⟨hx2, fun hs => ?_⟩)
            rcases List.mem_cons.mp hs with h4 | h4
            · exact hxy h4
            · exact hns h4

theorem nodup_url_dedupByUrl (l : List JobPost) :
    ∀ seen, ((dedupByUrl seen l).map (fun p => p.url)).Nodup := by
  induction l with
  | nil =>
    intro seen
    simp [dedupByUrl]
  | cons p ps ih =>
    intro seen
    unfold dedupByUrl
    by_cases h : p.url ∈ seen
    · rw [if_pos h]
      exact ih seen
    · rw [if_neg h]
      simp only [List.map_cons]
      refine List.nodup_cons.mpr ⟨fun hy => ?_, ih (p.url :: seen)⟩
      exact ((mem_url_dedupByUrl p.url ps (p.url :: seen)).mp hy).2 (List.mem_cons_self _ _)

theorem find?_dedupByUrl (U : String) (l : List JobPost) :
    ∀ seen, U ∉ seen →
      (dedupByUrl seen l).find? (fun p => p.url == U) = l.find? (fun p => p.url == U) := by
  induction l with
  | nil =>
    intro seen _
    rfl
  | cons p ps ih =>
    intro seen hU
    unfold dedupByUrl
    by_cases h : p.url ∈ seen
    · rw [if_pos h]
      have hne : ¬((fun q : JobPost => q.url == U) p = true) := by
        simp only [beq_iff_eq]
        intro heq
        exact hU (heq ▸ h)
      rw [@List.find?_cons_of_neg _ (fun q : JobPost => q.url == U) p ps hne]
      exact ih seen hU
    · rw [if_neg h]
      by_cases hpu : ((fun q : JobPost => q.url == U) p = true)
      · rw [@List.find?_cons_of_pos _ (fun q : JobPost => q.url == U) p
            (dedupByUrl (p.url :: seen) ps) hpu,
          @List.find?_cons_of_pos _ (fun q : JobPost => q.url == U) p ps hpu]
      · rw [@List.find?_cons_of_neg _ (fun q : JobPost => q.url == U) p
            (dedupByUrl (p.url :: seen) ps) hpu,
          @List.find?_cons_of_neg _ (fun q : JobPost => q.url == U) p ps hpu]
        refine ih (p.url :: seen) (fun hs => ?_)
        rcases List.mem_cons.mp hs with h4 | h4
        · simp only [beq_iff_eq] at hpu
          exact hpu h4.symm
        · exact hU h4

/-! Enrichment preserves the url column. -/

theorem enrich_url (p : JobPost) : (enrich p).url = p.url := rfl

theorem map_url_map_enrich (d : List JobPost) :
    (d.map enrich).map (fun r => r.url) = d.map (fun p => p.url) := by
  induction d with
  | nil => rfl
  | cons p ps ih =>
    simp only [List.map_cons, ih]
    rfl

theorem find?_map_enrich (U : String) (d : List JobPost) :
    (d.map enrich).find? (fun r => r.url == U) =
      (d.find? (fun p => p.url == U)).map enrich := by
  induction d with
  | nil => rfl
  | cons p ps ih =>
    simp only [List.map_cons]
    by_cases h : ((fun q : JobPost => q.url == U) p = true)
    · have h2 : ((fun r : EnrichedPost => r.url == U) (enrich p) = true) := h
      rw [@List.find?_cons_of_pos _ (fun r : EnrichedPost => r.url == U) (enrich p)
            (ps.map enrich) h2,
        @List.find?_cons_of_pos _ (fun q : JobPost => q.url == U) p ps h]
      rfl
    · have h2 : ¬((fun r : EnrichedPost => r.url == U) (enrich p) = true) := h
      rw [@List.find?_cons_of_neg _ (fun r : EnrichedPost => r.url == U) (enrich p)
            (ps.map enrich) h2,
        @List.find?_cons_of_neg _ (fun q : JobPost => q.url == U) p ps h]
      exact ih

/-! Lemmas about word-boundary-anchored search, used for the c++ claim. -/

theorem isPrefixOfL_ex : ∀ (p t : List Char), isPrefixOfL p t = true → ∃ r, t = p ++ r := by
  intro p
  induction p with
  | nil =>
    intro t _
    exact ⟨t, rfl⟩
  | cons a as ih =>
    intro t h
    cases t with
    | nil => simp [isPrefixOfL] at h
    | cons b bs =>
      unfold isPrefixOfL at h
      rw [Bool.and_eq_true] at h
      obtain ⟨r, hr⟩ := ih bs h.2
      have hab : a = b := by simpa using h.1
      subst hab
      exact ⟨r, by simp [hr]⟩

theorem wordSearchAux_split (pat : List Char) :
    ∀ (t : List Char) (prev : Option Char), wordSearchAux pat prev t = true →
      ∃ l r, t = l ++ r ∧ isPrefixOfL pat r = true ∧
        (wOpt pat.getLast? != wOpt ((r.drop pat.length).head?)) = true := by
  intro t
  induction t with
  | nil =>
    intro prev h
    simp [wordSearchAux] at h
  | cons c ts ih =>
    intro prev h
    unfold wordSearchAux at h
    rw [Bool.or_eq_true] at h
    rcases h with h | h
    · unfold boundedAt at h
      rw [Bool.and_eq_true, Bool.and_eq_true] at h
      exact ⟨[], c :: ts, rfl, h.1.1, h.2⟩
    · obtain ⟨l, r, hl, hp, hb⟩ := ih (some c) h
      exact ⟨c :: l, r, by simp [hl], hp, hb⟩

/-! Further shared helper lemmas about the salary parser. -/

theorem toQ_k15 : (Dec.mk 15000 0).toQ = 15000 := by
  norm_num [Dec.toQ]

theorem toQ_k700 : (Dec.mk 700000 0).toQ = 700000 := by
  norm_num [Dec.toQ]

theorem parse_unit_eq (s : String) :
    (parse_salary_to_yearly_usd s).2.2 = salary_unit s := by
  by_cases h : cleanTextL s.data = []
  · rw [parse_empty s h, salary_unit_empty s h]
  · rw [parse_char s h]
    rcases hrd : salaryRangeD s with _ | ⟨dl, dh⟩
    · rfl
    · dsimp only
      split
      · rfl
      · rfl

/-- When the parser returns a present range, that range is the annualized
pre-conversion range and the unit is the detected unit. -/
theorem parse_some_char (s : String) (lo hi : ℚ) (u : String)
    (hp : parse_salary_to_yearly_usd s = (some lo, some hi, u)) :
    ∃ dl dh : Dec, salaryRangeD s = some (dl, dh) ∧ u = salary_unit s ∧
      lo = dl.toQ * yearlyFactor u ∧ hi = dh.toQ * yearlyFactor u := by
  by_cases hemp : cleanTextL s.data = []
  · rw [parse_empty s hemp] at hp
    simp at hp
  · rw [parse_char s hemp] at hp
    rcases hrd : salaryRangeD s with _ | ⟨dl, dh⟩
    · rw [hrd] at hp
      simp at hp
    · rw [hrd] at hp
      dsimp only at hp
      by_cases hg : (Dec.blt (annualizeD (salary_unit s) dl) ⟨15000, 0⟩ ||
          Dec.blt ⟨700000, 0⟩ (annualizeD (salary_unit s) dh)) = true
      · rw [if_pos hg] at hp
        simp at hp
      · rw [if_neg hg] at hp
        simp only [Prod.mk.injEq, Option.some.injEq] at hp
        obtain ⟨h1, h2, h3⟩ := hp
        refine ⟨dl, dh, rfl, h3.symm, ?_, ?_⟩
        · rw [← h1, annualizeD_toQ, h3]
        · rw [← h2, annualizeD_toQ, h3]

/-- An empty cleaned input yields no numeric candidates. -/
theorem salaryRangeD_empty (s : String) (h : cleanTextL s.data = []) :
    salaryRangeD s = none := by
  have ht : salaryTxt s = [] := by
    unfold salaryTxt
    rw [h]
    rfl
  unfold salaryRangeD
  rw [ht]
  rfl

/-- The pre-conversion range is ordered: the low bound is at most the high
bound. -/
theorem salaryRangeD_le (s : String) (dl dh : Dec)
    (h : salaryRangeD s = some (dl, dh)) : dl.toQ ≤ dh.toQ := by
  unfold salaryRangeD at h
  rcases hscan : scanNums (salaryTxt s) with _ | ⟨n0, _ | ⟨n1, rest⟩⟩ <;> rw [hscan] at h
  · simp at h
  · simp only [Option.some.injEq, Prod.mk.injEq] at h
    rw [← h.1, ← h.2]
  · simp only [Option.some.injEq, Prod.mk.injEq] at h
    rw [← h.1, ← h.2, Dec.minD_toQ, Dec.maxD_toQ]
    exact min_le_max

/-- C1: for every salary string, parse_salary_to_yearly_usd applies the
fixed yearly conversion factors (hour times 2080, week times 52, month
times 12, year times 1) to the pre-conversion range, satisfies the
round-trip examples of the specification, and a bare number with no unit
keyword defaults to unit year. -/
theorem claim_C1_salary_conversion :
    parse_salary_to_yearly_usd "$50,000 - $60,000" = (some 50000, some 60000, "year") ∧
    parse_salary_to_yearly_usd "$40/hr" = (some 83200, some 83200, "hour") ∧
    parse_salary_to_yearly_usd "90k-110k" = (some 90000, some 110000, "year") ∧
    parse_salary_to_yearly_usd "" = (none, none, "unknown") ∧
    yearlyFactor "hour" = 2080 ∧ yearlyFactor "week" = 52 ∧
    yearlyFactor "month" = 12 ∧ yearlyFactor "year" = 1 ∧
    (∀ (s : String) (lo hi : ℚ) (u : String),
      parse_salary_to_yearly_usd s = (some lo, some hi, u) →
      ∃ l h, salaryRange s = some (l, h) ∧ lo = l * yearlyFactor u ∧ hi = h * yearlyFactor u) ∧
    (∀ s : String, cleanTextL s.data ≠ [] →
      containsSub "/hr".data (salaryTxt s) = false →
      containsSub "per hour".data (salaryTxt s) = false →
      containsSub "hour".data (salaryTxt s) = false →
      containsSub "/month".data (salaryTxt s) = false →
      containsSub "per month".data (salaryTxt s) = false →
      containsSub "/week".data (salaryTxt s) = false →
      containsSub "per week".data (salaryTxt s) = false →
      (parse_salary_to_yearly_usd s).2.2 = "year") := by
  refine ⟨?_, ?_, ?_, rfl, rfl, rfl, rfl, rfl, ?_, ?_⟩
  · have e1 : parse_salary_to_yearly_usd "$50,000 - $60,000" =
        (some (Dec.toQ ⟨50000, 0⟩), some (Dec.toQ ⟨60000, 0⟩), "year") := rfl
    rw [e1]
    norm_num [Dec.toQ]
  · have e2 : parse_salary_to_yearly_usd "$40/hr" =
        (some (Dec.toQ ⟨83200, 0⟩), some (Dec.toQ ⟨83200, 0⟩), "hour") := rfl
    rw [e2]
    norm_num [Dec.toQ]
  · have e3 : parse_salary_to_yearly_usd "90k-110k" =
        (some (Dec.toQ ⟨90000, 0⟩), some (Dec.toQ ⟨110000, 0⟩), "year") := rfl
    rw [e3]
    norm_num [Dec.toQ]
  · intro s lo hi u hp
    obtain ⟨dl, dh, hrd, hu, hlo, hhi⟩ := parse_some_char s lo hi u hp
    exact ⟨dl.toQ, dh.toQ, by simp [salaryRange, hrd], hlo, hhi⟩
  · intro s hemp h1 h2 h3 h4 h5 h6 h7
    have hu : detect_unit (salaryTxt s) = "year" := by
      unfold detect_unit
      rw [h1, h2, h3, h4, h5, h6, h7]
      rfl
    rw [parse_unit_eq, salary_unit_nonempty s hemp, hu]

/-- C1 witness: the conversion-factor conjunct applied to the concrete
hourly example. -/
theorem claim_C1_witness :
    ∃ l h, salaryRange "$40/hr" = some (l, h) ∧
      (83200 : ℚ) = l * yearlyFactor "hour" ∧ (83200 : ℚ) = h * yearlyFactor "hour" := by
  have hp : parse_salary_to_yearly_usd "$40/hr" = (some 83200, some 83200, "hour") :=
    claim_C1_salary_conversion.2.1
  exact claim_C1_salary_conversion.2.2.2.2.2.2.2.2.1 "$40/hr" 83200 83200 "hour" hp

/-- C2: the plausibility gate discards the numbers but keeps the unit when
the yearly minimum is below 15000 or the yearly maximum is above 700000;
the hourly examples 500 and 250 sit on the two sides of the gate. -/
theorem claim_C2_plausibility_gate :
    (∀ (s : String) (l h : ℚ), salaryRange s = some (l, h) →
      (l * yearlyFactor (salary_unit s) < 15000 ∨
        700000 < h * yearlyFactor (salary_unit s)) →
      parse_salary_to_yearly_usd s = (none, none, salary_unit s)) ∧
    parse_salary_to_yearly_usd "$500/hr" = (none, none, "hour") ∧
    parse_salary_to_yearly_usd "$250/hr" = (some 520000, some 520000, "hour") := by
  refine ⟨?_, rfl, ?_⟩
  · intro s l h hsr hout
    have hemp : cleanTextL s.data ≠ [] := by
      intro hz
      rw [salaryRange, salaryRangeD_empty s hz] at hsr
      simp at hsr
    obtain ⟨dl, dh, hrd, hl, hh⟩ : ∃ dl dh : Dec,
        salaryRangeD s = some (dl, dh) ∧ dl.toQ = l ∧ dh.toQ = h := by
      rw [salaryRange] at hsr
      rcases hrd : salaryRangeD s with _ | ⟨dl, dh⟩
      · rw [hrd] at hsr
        simp at hsr
      · rw [hrd] at hsr
        simp at hsr
        exact ⟨dl, dh, rfl, hsr.1, hsr.2⟩
    rw [parse_char s hemp, hrd]
    dsimp only
    rw [if_pos ?_]
    rw [Bool.or_eq_true]
    rcases hout with hlow | hhigh
    · refine Or.inl ((Dec.blt_iff _ _).mpr ?_)
      rw [toQ_k15, annualizeD_toQ, hl]
      exact hlow
    · refine Or.inr ((Dec.blt_iff _ _).mpr ?_)
      rw [toQ_k700, annualizeD_toQ, hh]
      exact hhigh
  · have e : parse_salary_to_yearly_usd "$250/hr" =
        (some (Dec.toQ ⟨520000, 0⟩), some (Dec.toQ ⟨520000, 0⟩), "hour") := rfl
    rw [e]
    norm_num [Dec.toQ]

/-- C2 witness: the gate conjunct applied to the concrete rejected hourly
input. -/
theorem claim_C2_witness :
    salaryRange "$500/hr" = some (500, 500) ∧
    ((500 : ℚ) * yearlyFactor (salary_unit "$500/hr") < 15000 ∨
      700000 < (500 : ℚ) * yearlyFactor (salary_unit "$500/hr")) ∧
    parse_salary_to_yearly_usd "$500/hr" = (none, none, salary_unit "$500/hr") := by
  have hd : salaryRangeD "$500/hr" = some (⟨500, 0⟩, ⟨500, 0⟩) := by decide
  have h1 : salaryRange "$500/hr" = some (500, 500) := by
    rw [salaryRange, hd]
    norm_num [Dec.toQ]
  have hu : salary_unit "$500/hr" = "hour" := rfl
  have h2 : ((500 : ℚ) * yearlyFactor (salary_unit "$500/hr") < 15000 ∨
      700000 < (500 : ℚ) * yearlyFactor (salary_unit "$500/hr")) := by
    rw [hu]
    right
    norm_num [yearlyFactor]
  exact ⟨h1, h2, claim_C2_plausibility_gate.1 "$500/hr" 500 500 h1 h2⟩

/-- C8 counterexample: the scanner multiplies by 1000 even when the k suffix
is separated from the number by whitespace, so at the input 20 space k the
candidate is 20000, not the 20 demanded by the claim. -/
theorem claim_C8_counterexample :
    salary_nums "20 k" = [20000] ∧ salary_nums "20 k" ≠ [20] := by
  have h1 : salary_nums "20 k" = [20000] := by
    have hd : scanNums (salaryTxt "20 k") = [⟨20000, 0⟩] := by decide
    rw [salary_nums, hd]
    norm_num [Dec.toQ]
  refine ⟨h1, ?_⟩
  rw [h1]
  intro h
  simp only [List.cons.injEq] at h
  norm_num at h

/-- C8 (amended): the candidates are the integer-or-decimal numbers found
left to right, multiplied by 1000 exactly when followed, possibly after
whitespace, by a k; when at least two candidates exist the parser uses only
the first two, with min the smaller and max the larger, and with exactly
one candidate min and max both equal it. -/
theorem claim_C8_amended_scan :
    (∀ (s : String) (n : ℚ) (u : String) (lo hi : ℚ),
      salary_nums s = [n] → parse_salary_to_yearly_usd s = (some lo, some hi, u) →
      lo = n * yearlyFactor u ∧ hi = n * yearlyFactor u) ∧
    (∀ (s : String) (a b : ℚ) (rest : List ℚ) (u : String) (lo hi : ℚ),
      salary_nums s = a :: b :: rest → parse_salary_to_yearly_usd s = (some lo, some hi, u) →
      lo = min a b * yearlyFactor u ∧ hi = max a b * yearlyFactor u) ∧
    salary_nums "90k-110k" = [90000, 110000] ∧
    salary_nums "1.5k" = [1500] ∧
    salary_nums "20 k" = [20000] ∧
    salary_nums "20 x" = [20] ∧
    salary_nums "30 40 50" = [30, 40, 50] := by
  refine ⟨?_, ?_, ?_, ?_, ?_, ?_, ?_⟩
  · intro s n u lo hi hnum hp
    obtain ⟨dl, dh, hrd, hu, hlo, hhi⟩ := parse_some_char s lo hi u hp
    rw [salary_nums] at hnum
    rcases hscan : scanNums (salaryTxt s) with _ | ⟨d0, _ | ⟨d1, drest⟩⟩
    · rw [hscan] at hnum
      simp at hnum
    · rw [hscan] at hnum
      simp only [List.map_cons, List.map_nil, List.cons.injEq, and_true] at hnum
      have hr2 : salaryRangeD s = some (d0, d0) := by
        rw [salaryRangeD, hscan]
      rw [hrd] at hr2
      simp only [Option.some.injEq, Prod.mk.injEq] at hr2
      rw [hlo, hhi, hr2.1, hr2.2, hnum]
      exact ⟨rfl, rfl⟩
    · rw [hscan] at hnum
      simp at hnum
  · intro s a b rest u lo hi hnum hp
    obtain ⟨dl, dh, hrd, hu, hlo, hhi⟩ := parse_some_char s lo hi u hp
    rw [salary_nums] at hnum
    rcases hscan : scanNums (salaryTxt s) with _ | ⟨d0, _ | ⟨d1, drest⟩⟩
    · rw [hscan] at hnum
      simp at hnum
    · rw [hscan] at hnum
      simp at hnum
    · rw [hscan] at hnum
      simp only [List.map_cons, List.cons.injEq] at hnum
      have hr2 : salaryRangeD s = some (Dec.minD d0 d1, Dec.maxD d0 d1) := by
        rw [salaryRangeD, hscan]
      rw [hrd] at hr2
      simp only [Option.some.injEq, Prod.mk.injEq] at hr2
      rw [hlo, hhi, hr2.1, hr2.2, Dec.minD_toQ, Dec.maxD_toQ, hnum.1, hnum.2.1]
      exact ⟨rfl, rfl⟩
  · have hd : scanNums (salaryTxt "90k-110k") = [⟨90000, 0⟩, ⟨110000, 0⟩] := by decide
    rw [salary_nums, hd]
    norm_num [Dec.toQ]
  · have hd : scanNums (salaryTxt "1.5k") = [⟨15000, 1⟩] := by decide
    rw [salary_nums, hd]
    norm_num [Dec.toQ]
  · have hd : scanNums (salaryTxt "20 k") = [⟨20000, 0⟩] := by decide
    rw [salary_nums, hd]
    norm_num [Dec.toQ]
  · have hd : scanNums (salaryTxt "20 x") = [⟨20, 0⟩] := by decide
    rw [salary_nums, hd]
    norm_num [Dec.toQ]
  · have hd : scanNums (salaryTxt "30 40 50") = [⟨30, 0⟩, ⟨40, 0⟩, ⟨50, 0⟩] := by decide
    rw [salary_nums, hd]
    norm_num [Dec.toQ]

/-- C8 witness: the first-two-candidates conjunct applied to a concrete
two-number input. -/
theorem claim_C8_witness :
    salary_nums "30k-40k" = [30000, 40000] ∧
    parse_salary_to_yearly_usd "30k-40k" = (some 30000, some 40000, "year") ∧
    (30000 : ℚ) = min (30000 : ℚ) 40000 * yearlyFactor "year" ∧
    (40000 : ℚ) = max (30000 : ℚ) 40000 * yearlyFactor "year" := by
  have hd : scanNums (salaryTxt "30k-40k") = [⟨30000, 0⟩, ⟨40000, 0⟩] := by decide
  have h1 : salary_nums "30k-40k" = [30000, 40000] := by
    rw [salary_nums, hd]
    norm_num [Dec.toQ]
  have h2 : parse_salary_to_yearly_usd "30k-40k" = (some 30000, some 40000, "year") := by
    have e : parse_salary_to_yearly_usd "30k-40k" =
        (some (Dec.toQ ⟨30000, 0⟩), some (Dec.toQ ⟨40000, 0⟩), "year") := rfl
    rw [e]
    norm_num [Dec.toQ]
  obtain ⟨hl, hh⟩ :=
    claim_C8_amended_scan.2.1 "30k-40k" 30000 40000 [] "year" 30000 40000 h1 h2
  exact ⟨h1, h2, hl, hh⟩

/-- C9: the parser returns both bounds or neither; present bounds are
ordered and within the plausibility bounds; and the unit is one of the five
known labels, with unknown exactly for the empty normalized input. -/
theorem claim_C9_parser_invariants :
    ∀ s : String,
      ((parse_salary_to_yearly_usd s).1 = none ↔ (parse_salary_to_yearly_usd s).2.1 = none) ∧
      (∀ a b : ℚ, (parse_salary_to_yearly_usd s).1 = some a →
        (parse_salary_to_yearly_usd s).2.1 = some b →
        a ≤ b ∧ 15000 ≤ a ∧ b ≤ 700000) ∧
      ((parse_salary_to_yearly_usd s).2.2 = "hour" ∨
        (parse_salary_to_yearly_usd s).2.2 = "week" ∨
        (parse_salary_to_yearly_usd s).2.2 = "month" ∨
        (parse_salary_to_yearly_usd s).2.2 = "year" ∨
        (parse_salary_to_yearly_usd s).2.2 = "unknown") ∧
      ((parse_salary_to_yearly_usd s).2.2 = "unknown" ↔ cleanTextL s.data = []) := by
  intro s
  have hunit : (parse_salary_to_yearly_usd s).2.2 = salary_unit s := parse_unit_eq s
  by_cases hemp : cleanTextL s.data = []
  · rw [parse_empty s hemp]
    refine ⟨Iff.rfl, ?_, ?_, ?_⟩
    · intro a b ha hb
      simp at ha
    · exact Or.inr (Or.inr (Or.inr (Or.inr rfl)))
    · simp [hemp]
  · have hdu : salary_unit s = detect_unit (salaryTxt s) := salary_unit_nonempty s hemp
    have hcases := detect_unit_cases (salaryTxt s)
    have hu5 : (parse_salary_to_yearly_usd s).2.2 = "hour" ∨
        (parse_salary_to_yearly_usd s).2.2 = "week" ∨
        (parse_salary_to_yearly_usd s).2.2 = "month" ∨
        (parse_salary_to_yearly_usd s).2.2 = "year" ∨
        (parse_salary_to_yearly_usd s).2.2 = "unknown" := by
      rw [hunit, hdu]
      rcases hcases with h | h | h | h
      · exact Or.inl h
      · exact Or.inr (Or.inr (Or.inl h))
      · exact Or.inr (Or.inl h)
      · exact Or.inr (Or.inr (Or.inr (Or.inl h)))
    have hnu : (parse_salary_to_yearly_usd s).2.2 ≠ "unknown" := by
      rw [hunit, hdu]
      rcases hcases with h | h | h | h <;> rw [h] <;> decide
    refine ⟨?_, ?_, hu5, ?_⟩
    · rw [parse_char s hemp]
      rcases hrd : salaryRangeD s with _ | ⟨dl, dh⟩
      · exact Iff.rfl
      · dsimp only
        split
        · exact Iff.rfl
        · simp
    · intro a b ha hb
      have hp : parse_salary_to_yearly_usd s =
          (some a, some b, (parse_salary_to_yearly_usd s).2.2) := by
        have hsh := parse_shape s
        rcases hsh with ⟨u, hu⟩ | ⟨a0, b0, u, hu⟩
        · rw [hu] at ha
          simp at ha
        · rw [hu] at ha hb ⊢
          simp only [Option.some.injEq] at ha hb
          rw [ha, hb]

      obtain ⟨dl, dh, hrd, hueq, hlo, hhi⟩ :=
        parse_some_char s a b (parse_salary_to_yearly_usd s).2.2 hp
      have hle : dl.toQ ≤ dh.toQ := salaryRangeD_le s dl dh hrd
      have hfac : 0 < yearlyFactor (parse_salary_to_yearly_usd s).2.2 :=
        yearlyFactor_pos _
      constructor
      · rw [hlo, hhi]
        exact mul_le_mul_of_nonneg_right hle (le_of_lt hfac)
      · -- the gate bounds, recovered from the non-rejecting branch
        rw [parse_char s hemp, hrd] at hp
        dsimp only at hp
        by_cases hg : (Dec.blt (annualizeD (salary_unit s) dl) ⟨15000, 0⟩ ||
            Dec.blt ⟨700000, 0⟩ (annualizeD (salary_unit s) dh)) = true
        · rw [if_pos hg] at hp
          simp at hp
        · rw [if_neg hg] at hp
          simp only [Prod.mk.injEq, Option.some.injEq] at hp
          rw [Bool.or_eq_true, not_or] at hg
          obtain ⟨hg1, hg2⟩ := hg
          have hb1 : ¬((annualizeD (salary_unit s) dl).toQ < (Dec.mk 15000 0).toQ) :=
            fun hlt => hg1 ((Dec.blt_iff _ _).mpr hlt)
          have hb2 : ¬((Dec.mk 700000 0).toQ < (annualizeD (salary_unit s) dh).toQ) :=
            fun hlt => hg2 ((Dec.blt_iff _ _).mpr hlt)
          rw [toQ_k15] at hb1
          rw [toQ_k700] at hb2
          constructor
          · rw [hlo, hueq, ← annualizeD_toQ]
            exact le_of_not_lt hb1
          · rw [hhi, hueq, ← annualizeD_toQ]
            exact le_of_not_lt hb2
    · constructor
      · intro h
        exact absurd h hnu
      · intro h
        exact absurd h hemp

/-- C9 witness: the invariants instantiated at the concrete passing hourly
input. -/
theorem claim_C9_witness :
    (parse_salary_to_yearly_usd "$250/hr").1 = some 520000 ∧
    ((520000 : ℚ) ≤ 520000 ∧ 15000 ≤ (520000 : ℚ) ∧ (520000 : ℚ) ≤ 700000) := by
  have e : parse_salary_to_yearly_usd "$250/hr" =
      (some (Dec.toQ ⟨520000, 0⟩), some (Dec.toQ ⟨520000, 0⟩), "hour") := rfl
  have h : parse_salary_to_yearly_usd "$250/hr" = (some 520000, some 520000, "hour") := by
    rw [e]
    norm_num [Dec.toQ]
  have ha : (parse_salary_to_yearly_usd "$250/hr").1 = some 520000 := by
    rw [h]
  have hb : (parse_salary_to_yearly_usd "$250/hr").2.1 = some 520000 := by
    rw [h]
  exact ⟨ha, (claim_C9_parser_invariants "$250/hr").2.1 520000 520000 ha hb⟩

/-- C3: the orchestrator output has unique URLs; whenever some input records
share a URL after normalization, exactly one output record carries it,
namely the enrichment of the first such record in input order; and the
output is the enrichment of an order-preserving selection of the normalized
input. -/
theorem claim_C3_dedup_unique_urls :
    ∀ df : List JobPost,
      ((clean_posts df).map (fun r => r.url)).Nodup ∧
      (∀ U : String,
        0 < ((df.map normalizePost).map (fun p => p.url)).count U →
        ((clean_posts df).map (fun r => r.url)).count U = 1 ∧
        (clean_posts df).find? (fun r => r.url == U) =
          ((df.map normalizePost).find? (fun p => p.url == U)).map enrich) ∧
      clean_posts df = (dedupByUrl [] (df.map normalizePost)).map enrich ∧
      (dedupByUrl [] (df.map normalizePost)).Sublist (df.map normalizePost) := by
  intro df
  refine ⟨?_, ?_, rfl, dedupByUrl_sublist _ []⟩
  · rw [show (clean_posts df).map (fun r => r.url) =
        (dedupByUrl [] (df.map normalizePost)).map (fun p => p.url) from
      map_url_map_enrich _]
    exact nodup_url_dedupByUrl _ []
  · intro U hU
    have hmem : U ∈ (df.map normalizePost).map (fun p => p.url) :=
      List.count_pos_iff.mp hU
    constructor
    · rw [show (clean_posts df).map (fun r => r.url) =
          (dedupByUrl [] (df.map normalizePost)).map (fun p => p.url) from
        map_url_map_enrich _]
      exact List.count_eq_one_of_mem (nodup_url_dedupByUrl _ [])
        ((mem_url_dedupByUrl U _ []).mpr ⟨hmem, by simp⟩)
    · calc (clean_posts df).find? (fun r => r.url == U)
          = ((dedupByUrl [] (df.map normalizePost)).find?
              (fun p => p.url == U)).map enrich := find?_map_enrich U _
        _ = ((df.map normalizePost).find? (fun p => p.url == U)).map enrich := by
            rw [find?_dedupByUrl U _ [] (by simp)]

/-- Concrete input record used by the C3 witness. -/
def wpA : JobPost :=
  { source := "RemoteOK", title := "Data Scientist", company := "Acme"
    location := "Remote", date_posted_raw := "2024", salary_raw := ""
    url := "https://x/j1", description := "python work", scraped_at_utc := "t1" }

/-- Second concrete input record used by the C3 witness, sharing the URL of
the first. -/
def wpB : JobPost :=
  { source := "Remotive", title := "Data Scientist II", company := "Acme"
    location := "Remote", date_posted_raw := "2024", salary_raw := ""
    url := "https://x/j1", description := "more python", scraped_at_utc := "t2" }

/-- C3 witness: the uniqueness conjunct applied to a concrete two-record
input sharing one URL. -/
theorem claim_C3_witness :
    0 < (([wpA, wpB].map normalizePost).map (fun p => p.url)).count "https://x/j1" ∧
    ((clean_posts [wpA, wpB]).map (fun r => r.url)).count "https://x/j1" = 1 ∧
    (clean_posts [wpA, wpB]).find? (fun r => r.url == "https://x/j1") =
      (([wpA, wpB].map normalizePost).find? (fun p => p.url == "https://x/j1")).map enrich := by
  have h : 0 < (([wpA, wpB].map normalizePost).map (fun p => p.url)).count "https://x/j1" := by
    decide
  obtain ⟨h1, h2⟩ := (claim_C3_dedup_unique_urls [wpA, wpB]).2.1 "https://x/j1" h
  exact ⟨h, h1, h2⟩

/-- C4: extract_skills matches short entries with word boundaries and long
entries by containment against the lowercased text, returns the matches in
vocabulary order without duplicates, and on the example text finds exactly
python and r. -/
theorem claim_C4_skill_extraction :
    extract_skills "We use Python and R for data work" SKILLS = ["python", "r"] ∧
    (∀ (text : String) (vocab : List String), (extract_skills text vocab).Nodup) ∧
    (∀ (text : String) (vocab : List String), (extract_skills text vocab).Sublist vocab) ∧
    (∀ (text : String) (vocab : List String) (sk : String),
      sk ∈ extract_skills text vocab ↔ sk ∈ vocab ∧ skillMatch (lowerL text) sk = true) := by
  refine ⟨by decide, ?_, ?_, ?_⟩
  · intro text vocab
    exact nodup_dedupKeepFirst _ []
  · intro text vocab
    exact (sublist_dedupKeepFirst _ []).trans (List.filter_sublist _)
  · intro text vocab sk
    show sk ∈ dedupKeepFirst [] (vocab.filter (skillMatch (lowerL text))) ↔ _
    rw [mem_dedupKeepFirst]
    simp [List.mem_filter]

/-- C4 witness: the membership characterization instantiated at the example
text and the python entry. -/
theorem claim_C4_witness :
    "python" ∈ extract_skills "We use Python and R for data work" SKILLS ↔
      "python" ∈ SKILLS ∧
        skillMatch (lowerL "We use Python and R for data work") "python" = true :=
  claim_C4_skill_extraction.2.2.2 "We use Python and R for data work" SKILLS "python"

/-- C5: categorize_role checks the role buckets in declared order on the
lowercased title, the first bucket with a keyword occurring as a substring
wins, a title matching no bucket maps to Other, and the three examples of
the specification hold. -/
theorem claim_C5_role_classification :
    categorize_role "Senior Data Scientist" = "Data Scientist" ∧
    categorize_role "Backend Engineer" = "Software Engineer" ∧
    categorize_role "Chef" = "Other" ∧
    (∀ title : String,
      (∀ pr ∈ ROLE_KEYWORDS, anyKeyIn pr.2 (lowerL title) = false) →
      categorize_role title = "Other") ∧
    (∀ (title : String) (pre : List (String × List String)) (lab : String)
        (keys : List String) (post : List (String × List String)),
      ROLE_KEYWORDS = pre ++ (lab, keys) :: post →
      (∀ pr ∈ pre, anyKeyIn pr.2 (lowerL title) = false) →
      anyKeyIn keys (lowerL title) = true →
      categorize_role title = lab) := by
  refine ⟨by decide, by decide, by decide, ?_, ?_⟩
  · intro title h
    unfold categorize_role
    rw [firstLabel_none _ _ h]
    rfl
  · intro title pre lab keys post hsplit hpre hk
    unfold categorize_role
    rw [hsplit, firstLabel_first _ _ _ _ _ hpre hk]
    rfl

/-- C5 witness: the no-match conjunct applied to the concrete title Chef. -/
theorem claim_C5_witness :
    (∀ pr ∈ ROLE_KEYWORDS, anyKeyIn pr.2 (lowerL "Chef") = false) ∧
    categorize_role "Chef" = "Other" := by
  have h : ∀ pr ∈ ROLE_KEYWORDS, anyKeyIn pr.2 (lowerL "Chef") = false := by decide
  exact ⟨h, claim_C5_role_classification.2.2.2.1 "Chef" h⟩

/-- C6: classify_region checks the region buckets in declared order on the
lowercased location, the first bucket with a keyword occurring as a
substring wins, and with no bucket match the result depends only on whether
the text contains remote; the three examples of the specification hold. -/
theorem claim_C6_region_classification :
    classify_region "San Francisco, CA" = "West Coast" ∧
    classify_region "Remote (US)" = "Remote/Unspecified" ∧
    classify_region "Berlin" = "Other/Unspecified" ∧
    (∀ loc : String,
      (∀ pr ∈ REGION_KEYWORDS, anyKeyIn pr.2 (lowerL loc) = false) →
      classify_region loc =
        if containsSub "remote".data (lowerL loc) then "Remote/Unspecified"
        else "Other/Unspecified") ∧
    (∀ (loc : String) (pre : List (String × List String)) (lab : String)
        (keys : List String) (post : List (String × List String)),
      REGION_KEYWORDS = pre ++ (lab, keys) :: post →
      (∀ pr ∈ pre, anyKeyIn pr.2 (lowerL loc) = false) →
      anyKeyIn keys (lowerL loc) = true →
      classify_region loc = lab) := by
  refine ⟨by decide, by decide, by decide, ?_, ?_⟩
  · intro loc h
    unfold classify_region
    rw [firstLabel_none _ _ h]
  · intro loc pre lab keys post hsplit hpre hk
    unfold classify_region
    rw [hsplit, firstLabel_first _ _ _ _ _ hpre hk]

/-- C6 witness: the fallback conjunct applied to the concrete location
Berlin. -/
theorem claim_C6_witness :
    (∀ pr ∈ REGION_KEYWORDS, anyKeyIn pr.2 (lowerL "Berlin") = false) ∧
    classify_region "Berlin" =
      (if containsSub "remote".data (lowerL "Berlin") then "Remote/Unspecified"
       else "Other/Unspecified") := by
  have h : ∀ pr ∈ REGION_KEYWORDS, anyKeyIn pr.2 (lowerL "Berlin") = false := by decide
  exact ⟨h, claim_C6_region_classification.2.2.2.1 "Berlin" h⟩

/-- C7: in every record of the orchestrator output, the salary mid column
is the arithmetic mean of the min and max columns when both are present,
and absent, not zero, when either is absent. -/
theorem claim_C7_salary_mid :
    ∀ (df : List JobPost) (r : EnrichedPost), r ∈ clean_posts df →
      (∀ a b : ℚ, r.salary_min_usd_year = some a → r.salary_max_usd_year = some b →
        r.salary_mid_usd_year = some ((a + b) / 2)) ∧
      ((r.salary_min_usd_year = none ∨ r.salary_max_usd_year = none) →
        r.salary_mid_usd_year = none) := by
  intro df r hr
  have hr2 : r ∈ (dedupByUrl [] (df.map normalizePost)).map enrich := hr
  obtain ⟨p, hp, hre⟩ := List.mem_map.mp hr2
  subst hre
  rcases parse_shape p.salary_raw with ⟨u, hu⟩ | ⟨a0, b0, u, hu⟩
  · constructor
    · intro a b ha hb
      have hmin : (enrich p).salary_min_usd_year = none := by
        simp [enrich, hu]
      rw [hmin] at ha
      simp at ha
    · intro _
      simp [enrich, hu, rowMean2]
  · constructor
    · intro a b ha hb
      have hmin : (enrich p).salary_min_usd_year = some a0 := by
        simp [enrich, hu]
      have hmax : (enrich p).salary_max_usd_year = some b0 := by
        simp [enrich, hu]
      rw [hmin] at ha
      rw [hmax] at hb
      simp only [Option.some.injEq] at ha hb
      have hmid : (enrich p).salary_mid_usd_year = some ((a0 + b0) / 2) := by
        simp [enrich, hu, rowMean2]
      rw [hmid, ha, hb]
    · intro hor
      rcases hor with hmin | hmax
      · have h0 : (enrich p).salary_min_usd_year = some a0 := by
          simp [enrich, hu]
        rw [h0] at hmin
        simp at hmin
      · have h0 : (enrich p).salary_max_usd_year = some b0 := by
          simp [enrich, hu]
        rw [h0] at hmax
        simp at hmax

/-- Concrete input record used by the C7 witness. -/
def wpC : JobPost :=
  { source := "RemoteOK", title := "Data Scientist", company := "Acme"
    location := "Remote", date_posted_raw := "2024", salary_raw := "50000-70000"
    url := "https://x/j2", description := "python work", scraped_at_utc := "t3" }

/-- C7 witness: the mean conjunct applied to a concrete record whose salary
parses to the range 50000 to 70000. -/
theorem claim_C7_witness :
    enrich (normalizePost wpC) ∈ clean_posts [wpC] ∧
    (enrich (normalizePost wpC)).salary_min_usd_year = some 50000 ∧
    (enrich (normalizePost wpC)).salary_max_usd_year = some 70000 ∧
    (enrich (normalizePost wpC)).salary_mid_usd_year = some (((50000 : ℚ) + 70000) / 2) := by
  have hmem : enrich (normalizePost wpC) ∈ clean_posts [wpC] := by
    show enrich (normalizePost wpC) ∈ [enrich (normalizePost wpC)]
    exact List.mem_singleton.mpr rfl
  have hparse : parse_salary_to_yearly_usd (normalizePost wpC).salary_raw =
      (some (Dec.toQ ⟨50000, 0⟩), some (Dec.toQ ⟨70000, 0⟩), "year") := rfl
  have hmin : (enrich (normalizePost wpC)).salary_min_usd_year = some 50000 := by
    show (parse_salary_to_yearly_usd (normalizePost wpC).salary_raw).1 = some 50000
    rw [hparse]
    norm_num [Dec.toQ]
  have hmax : (enrich (normalizePost wpC)).salary_max_usd_year = some 70000 := by
    show (parse_salary_to_yearly_usd (normalizePost wpC).salary_raw).2.1 = some 70000
    rw [hparse]
    norm_num [Dec.toQ]
  obtain ⟨hfun, _⟩ := claim_C7_salary_mid [wpC] (enrich (normalizePost wpC)) hmem
  exact ⟨hmem, hmin, hmax, hfun 50000 70000 hmin hmax⟩

/-- C10: the word-boundary rule means the vocabulary entry c++ can be found
only when the second plus is immediately followed by a word character, so
the example text ending in c++ yields no c++ skill; in general a match
forces a letter, digit or underscore right after the two plus signs in the
lowercased text. -/
theorem claim_C10_cpp_word_boundary :
    "c++" ∉ extract_skills "we use c++" SKILLS ∧
    (∀ text : String, "c++" ∈ extract_skills text SKILLS →
      ∃ (l r : List Char) (c : Char),
        lowerL text = l ++ ('c' :: '+' :: '+' :: c :: r) ∧ isWordChar c = true) := by
  constructor
  · decide
  · intro text hmem
    have hmem2 : "c++" ∈ dedupKeepFirst [] (SKILLS.filter (skillMatch (lowerL text))) := hmem
    have hfil := (mem_dedupKeepFirst "c++" (SKILLS.filter (skillMatch (lowerL text))) []).mp hmem2
    have hm : skillMatch (lowerL text) "c++" = true := (List.mem_filter.mp hfil.1).2
    have hw : wordSearch "c++".data (lowerL text) = true := by
      have hshort : ("c++".length ≤ 3 || "c++" == "r") = true := by decide
      rw [skillMatch, if_pos hshort] at hm
      exact hm
    obtain ⟨l, r, hl, hpre2, hb⟩ := wordSearchAux_split "c++".data (lowerL text) none hw
    obtain ⟨r2, hr2⟩ := isPrefixOfL_ex "c++".data r hpre2
    have hr3 : r = 'c' :: '+' :: '+' :: r2 := hr2
    subst hr3
    have hbb : (false != wOpt (List.head? r2)) = true := hb
    cases r2 with
    | nil => exact absurd hbb (by decide)
    | cons c r3 =>
      refine ⟨l, r3, c, hl, ?_⟩
      cases hc : isWordChar c
      · have hbb2 : (false != isWordChar c) = true := hbb
        rw [hc] at hbb2
        exact absurd hbb2 (by decide)
      · rfl

/-- C10 witness: the general conjunct applied to a text where c++ is
followed by a digit and the skill is found. -/
theorem claim_C10_witness :
    "c++" ∈ extract_skills "we use c++17" SKILLS ∧
    (∃ (l r : List Char) (c : Char),
      lowerL "we use c++17" = l ++ ('c' :: '+' :: '+' :: c :: r) ∧ isWordChar c = true) := by
  have h : "c++" ∈ extract_skills "we use c++17" SKILLS := by decide
  exact ⟨h, claim_C10_cpp_word_boundary.2 "we use c++17" h⟩

end JobPipeline
